import Mathlib

/-!
Verification of the effect-templater core (src/esm/Templater.ts) and of the
formatting sub-library constructors (src/unnamed/part_000).

JavaScript strings are modelled as `List Char`; string helpers from the
external `effect` / `@parischap/effect-lib` packages (searchAll, splitAt,
substring, Array.sort, Array.chop, Array.mapAccum, groupByNum, match012,
Either.all, Option.all) are embedded per their documented contracts, which
the spec records in its "external interfaces" section.  The templater
functions `make`, `write` and `read` are translated from the source.
-/

namespace Templater

/-- Coerces a Lean string literal to the `List Char` model of JS strings. -/
def str (s : String) : List Char := s.toList

/-- Model of JS `String.prototype.substring(a, b)`: both indices are clamped
to `[0, length]` and swapped when out of order, then the characters in
`[lo, hi)` are returned. -/
def jsSubstring (s : List Char) (a b : Nat) : List Char :=
  let a' := min a s.length
  let b' := min b s.length
  ((s.take (max a' b')).drop (min a' b'))

/-- Model of the external search primitive `MString.searchAll` (fuel-driven so
that it is structurally recursive and kernel-evaluable): all left-to-right,
non-overlapping occurrences of `needle`, as `(startIndex, endIndex)` pairs,
scanning the remaining `hay` whose first character sits at offset `off`.
Each recursive step consumes at least one character when the needle is
nonempty, so `hay.length` fuel is always enough. -/
def searchAllFuel (needle : List Char) : Nat → List Char → Nat → List (Nat × Nat)
  | 0, _, _ => []
  | _ + 1, [], _ => []
  | fuel + 1, c :: rest, off =>
    if needle.isPrefixOf (c :: rest) then
      (off, off + needle.length) ::
        searchAllFuel needle fuel ((c :: rest).drop needle.length) (off + needle.length)
    else searchAllFuel needle fuel rest (off + 1)

/-- Model of `MString.searchAll needle hay`: every occurrence of `needle` in
`hay`, left to right, non-overlapping within itself.  An empty needle yields
no occurrence. -/
def searchAll (needle hay : List Char) : List (Nat × Nat) :=
  if needle = [] then [] else searchAllFuel needle hay.length hay 0

/-- A tagged occurrence: `(targetIndex, startIndex, endIndex)`. -/
abbrev TOcc := Nat × Nat × Nat

/-- Model of `MArray.ungroup` applied to the per-target search results: each
element of the `i`-th inner list is tagged with index `i` (offset by the
starting index `i0`), and the tagged lists are concatenated in order. -/
def ungroupFrom (i0 : Nat) : List (List (Nat × Nat)) → List TOcc
  | [] => []
  | l :: ls => l.map (fun sr => (i0, sr.1, sr.2)) ++ ungroupFrom (i0 + 1) ls

/-- All occurrences of all targets in the template, each tagged with its
target index (lines 38-40 of the source: `Array.map` of `searchAll` over
`targets`, then `MArray.ungroup`). -/
def taggedOccs (template : List Char) (targets : List (List Char)) : List TOcc :=
  ungroupFrom 0 (targets.map (fun t => searchAll t template))

/-- The order `MString.searchResultByStartIndexAndReverseEndIndex` used by the
compiler: `startIndex` ascending, then `endIndex` descending. -/
def occLE (a b : TOcc) : Prop :=
  a.2.1 < b.2.1 ∨ (a.2.1 = b.2.1 ∧ b.2.2 ≤ a.2.2)

instance : DecidableRel occLE := fun a b => by
  unfold occLE; infer_instance

instance : IsTotal TOcc occLE where
  total a b := by unfold occLE; omega

instance : IsTrans TOcc occLE where
  trans a b c := by unfold occLE; omega

/-- Model of `Array.sort` (a stable sort) with the order above (lines
42-47 of the source). -/
def sortOccs (l : List TOcc) : List TOcc := List.insertionSort occLE l

/-- Fuel-driven body of the `Array.chop` call of lines 48-55 of the source:
keep the head as the winner, drop every following occurrence whose
`startIndex` is below the winner's `endIndex`, repeat.  In the source the
`dropWhile` runs over the whole list including the head; the head always
satisfies the predicate there (searchAll only produces occurrences with
`startIndex < endIndex`), so dropping it from the tail is the same.  Each
step consumes at least the head, so `l.length` fuel is always enough. -/
def resolveFuel : Nat → List TOcc → List TOcc
  | 0, _ => []
  | _ + 1, [] => []
  | fuel + 1, head :: tail =>
    head :: resolveFuel fuel (tail.dropWhile (fun x => x.2.1 < head.2.2))

/-- Overlap suppression of the compiler: the surviving occurrences. -/
def resolveOverlaps (l : List TOcc) : List TOcc := resolveFuel l.length l

/-- Modelled from the spec: the foremost-longest greedy partition in the
spec's own words — "take the first remaining occurrence as the winner for its
span, and drop every other occurrence whose startIndex is less than
winnerEnd; repeat".  Used only as the reference side of the refinement
claim about overlap resolution. -/
def greedyFuel : Nat → List TOcc → List TOcc
  | 0, _ => []
  | _ + 1, [] => []
  | fuel + 1, winner :: others =>
    winner :: greedyFuel fuel (others.filter (fun x => ¬ x.2.1 < winner.2.2))

/-- Modelled from the spec: greedy selection run with enough fuel. -/
def greedySelect (l : List TOcc) : List TOcc := greedyFuel l.length l

/-- Model of `Array.mapAccum`: threads an accumulator left to right and
collects the mapped elements. -/
def mapAccum (f : σ → α → σ × β) : σ → List α → σ × List β
  | s, [] => (s, [])
  | s, a :: as =>
    let p := f s a
    let q := mapAccum f p.1 as
    (q.1, p.2 :: q.2)

/-- The compiled template (`Type<T>` in the source): an array of
`(staticText, targetIndex)` blocks, the final static text, and the retained
target list. -/
structure Tpl where
  textAndTargetArray : List (List Char × Nat)
  finalStaticText : List Char
  targets : List (List Char)
deriving DecidableEq, Repr

/-- Translation of `make` (lines 33-65 of the source): tag all search
results, sort them by start ascending / end descending, suppress overlaps
keeping the foremost longest occurrence, then cut the template into blocks
with `mapAccum` and keep the tail after the last occurrence as
`finalStaticText`. -/
def make (template : List Char) (targets : List (List Char)) : Tpl :=
  let survivors := resolveOverlaps (sortOccs (taggedOccs template targets))
  let p := mapAccum
    (fun startPos occ => (occ.2.2, (jsSubstring template startPos occ.2.1, occ.1)))
    0 survivors
  { textAndTargetArray := p.2
    finalStaticText := template.drop p.1
    targets := targets }

/-- Translation of `write` (lines 71-96 of the source): for every block emit
its static text followed by the value at its target index (the empty string
when the value list is too short), then append the final static text. -/
def write (self : Tpl) (targetValues : List (List Char)) : List Char :=
  (self.textAndTargetArray.map
    (fun b => b.1 ++ targetValues.getD b.2 [])).flatten ++ self.finalStaticText

/-- An extraction pattern, as the spec describes the opaque matcher the
reader consumes: given the remaining input it either fails or returns the
matched substring, which the reader strips from the front of the input. -/
abbrev Pat := List Char → Option (List Char)

/-- The pattern that matches exactly the literal `v` at the cursor. -/
def litPat (v : List Char) : Pat := fun s => if v.isPrefixOf s then some v else none

/-- The errors the reader can produce.  `badFormatText` and
`badFormatPattern` are the two shapes of `MBadArgumentError.BadFormat`
(expected literal vs expected pattern) with the block ordinal they carry in
`positions`; `tooMany` is `MBadArgumentError.TooMany` with its `id`,
`positions` and `elements` fields; `noSuchElement` is the
`Cause.NoSuchElementException` that escapes `read`'s declared error type
because the `MEither.optionFromOptional` of line 232 is commented out. -/
inductive ReadError
  | badFormatText (expected : List Char) (position : Nat)
  | badFormatPattern (position : Nat)
  | tooMany (id : List Char) (positions : List Nat) (elements : List (List Char))
  | noSuchElement
deriving DecidableEq, Repr

/-- The block scan of `read` (lines 130-188 of the source): walk the blocks
in order; at each block require the cursor to start with the static text
(else `BadFormat` at that position), then apply the pattern of the block's
target when one was supplied — a match is captured and consumed, a failure
is a `BadFormat` at that position, and an absent pattern captures nothing
and consumes nothing.  Returns the remaining cursor and the per-block
`(targetIndex, capture)` list, in block order. -/
def scanBlocks (targetPatterns : List Pat) :
    List (List Char × Nat) → Nat → List Char →
      Except ReadError (List Char × List (Nat × Option (List Char)))
  | [], _, leftToRead => .ok (leftToRead, [])
  | (staticText, targetIndex) :: rest, position, leftToRead =>
    if leftToRead.take staticText.length = staticText then
      let strippedOfStaticText := leftToRead.drop staticText.length
      match targetPatterns[targetIndex]? with
      | none =>
        match scanBlocks targetPatterns rest (position + 1) strippedOfStaticText with
        | .error e => .error e
        | .ok (c, vs) => .ok (c, (targetIndex, none) :: vs)
      | some pattern =>
        match pattern strippedOfStaticText with
        | none => .error (.badFormatPattern position)
        | some v =>
          match scanBlocks targetPatterns rest (position + 1)
              (strippedOfStaticText.drop v.length) with
          | .error e => .error e
          | .ok (c, vs) => .ok (c, (targetIndex, some v) :: vs)
    else .error (.badFormatText staticText position)

/-- Model of `Option.all` over a list: `some` of all values iff none is
`none`. -/
def optionAll : List (Option α) → Option (List α)
  | [] => some []
  | none :: _ => none
  | some a :: rest => (optionAll rest).map (a :: ·)

/-- Model of `Either.all` over a list: the values when all are `ok`, else
the first error. -/
def exceptAll : List (Except ε α) → Except ε (List α)
  | [] => .ok []
  | .error e :: _ => .error e
  | .ok a :: rest => (exceptAll rest).map (a :: ·)

/-- Model of `MArray.findAll p l`: the indices of the elements satisfying
`p`, in order. -/
def findAllIdx (p : α → Bool) (l : List α) : List Nat :=
  (l.enum.filter (fun x => p x.2)).map Prod.fst

/-- The reconciliation pass of `read` as written (lines 201-236 of the
source): group the captures by target index into `targets.length` buckets
(`MArray.groupByNum`), then per bucket: `Option.all` followed by
`Either.fromOption` (a bucket holding a capture-less occurrence is a
`NoSuchElementException`), then `MArray.match012` — an empty bucket is a
`NoSuchElementException`, a singleton is returned as is, and two or more
captures are a `TooMany` carrying the target name, the block ordinals of
the captures and the captured values.  The `MEither.optionFromOptional`
that the source comments out on line 232 is absent, so the per-target
results are the bare captured strings and the `NoSuchElementException`s
reach the final `Either.all`. -/
def collect (targets : List (List Char)) (values : List (Nat × Option (List Char))) :
    Except ReadError (List (List Char)) :=
  exceptAll ((List.range targets.length).map (fun position =>
    match optionAll ((values.filter (fun p => p.1 == position)).map Prod.snd) with
    | none => .error .noSuchElement
    | some [] => .error .noSuchElement
    | some [v] => .ok v
    | some (v1 :: v2 :: r) =>
      .error (.tooMany (targets.getD position [])
        (findAllIdx (fun p => p.1 == position) values) (v1 :: v2 :: r))))

/-- Translation of `read` (lines 104-239 of the source): scan the blocks,
require the remaining cursor to equal `finalStaticText` exactly (else a
`BadFormat` positioned after the last block), then reconcile the captures
with `collect`.  Because the `optionFromOptional` of line 232 is commented
out, the success value is the list of bare captured strings. -/
def read (self : Tpl) (targetPatterns : List Pat) (filledOutTemplate : List Char) :
    Except ReadError (List (List Char)) :=
  match scanBlocks targetPatterns self.textAndTargetArray 0 filledOutTemplate with
  | .error e => .error e
  | .ok (afterAllTargets, values) =>
    if afterAllTargets = self.finalStaticText then collect self.targets values
    else .error (.badFormatText self.finalStaticText self.textAndTargetArray.length)

/-- The reconciliation pass as the source documents it (its doc comment and
declared types), i.e. with the commented-out `MEither.optionFromOptional` of
line 232 restored: an absent target or an absent pattern yields `none`, a
single capture yields `some`, two or more captures are a `TooMany`. -/
def collectIntended (targets : List (List Char))
    (values : List (Nat × Option (List Char))) :
    Except ReadError (List (Option (List Char))) :=
  exceptAll ((List.range targets.length).map (fun position =>
    match optionAll ((values.filter (fun p => p.1 == position)).map Prod.snd) with
    | none => .ok none
    | some [] => .ok none
    | some [v] => .ok (some v)
    | some (v1 :: v2 :: r) =>
      .error (.tooMany (targets.getD position [])
        (findAllIdx (fun p => p.1 == position) values) (v1 :: v2 :: r))))

/-- The reader with the documented reconciliation (`collectIntended`): what
`read` computes once the commented-out line 232 is restored. -/
def readIntended (self : Tpl) (targetPatterns : List Pat)
    (filledOutTemplate : List Char) :
    Except ReadError (List (Option (List Char))) :=
  match scanBlocks targetPatterns self.textAndTargetArray 0 filledOutTemplate with
  | .error e => .error e
  | .ok (afterAllTargets, values) =>
    if afterAllTargets = self.finalStaticText then collectIntended self.targets values
    else .error (.badFormatText self.finalStaticText self.textAndTargetArray.length)

/-! Soundness of the search primitive: every reported occurrence really is an
occurrence of the needle, with `endIndex = startIndex + needle.length`, lying
inside the haystack. -/

/-- A successful boolean prefix test certifies the matching `take`. -/
theorem isPrefixOf_take : ∀ (p l : List Char), p.isPrefixOf l = true → l.take p.length = p
  | [], _, _ => rfl
  | a :: p, [], h => by simp [List.isPrefixOf] at h
  | a :: p, b :: l, h => by
    simp only [List.isPrefixOf, Bool.and_eq_true, beq_iff_eq] at h
    obtain ⟨rfl, h2⟩ := h
    simp [isPrefixOf_take p l h2]

/-- A successful boolean prefix test bounds the needle's length. -/
theorem isPrefixOf_length_le (p l : List Char) (h : p.isPrefixOf l = true) :
    p.length ≤ l.length := by
  have := congrArg List.length (isPrefixOf_take p l h)
  simp only [List.length_take] at this
  omega

/-- Occurrences reported by `searchAllFuel` start at or after the current
offset, span exactly the needle, and the needle is a prefix of the haystack
suffix at the reported start. -/
theorem searchAllFuel_sound (needle : List Char) :
    ∀ (fuel : Nat) (hay : List Char) (off s e : Nat),
      (s, e) ∈ searchAllFuel needle fuel hay off →
      off ≤ s ∧ e = s + needle.length ∧ needle.isPrefixOf (hay.drop (s - off)) = true
  | 0, hay, off, s, e, h => by simp [searchAllFuel] at h
  | fuel + 1, [], off, s, e, h => by simp [searchAllFuel] at h
  | fuel + 1, c :: rest, off, s, e, h => by
    by_cases hp : needle.isPrefixOf (c :: rest)
    · simp only [searchAllFuel, if_pos hp, List.mem_cons] at h
      rcases h with heq | hmem
      · obtain ⟨rfl, rfl⟩ : s = off ∧ e = off + needle.length := by
          simpa [Prod.ext_iff] using heq
        exact ⟨le_refl _, rfl, by simpa using hp⟩
      · obtain ⟨h1, h2, h3⟩ :=
          searchAllFuel_sound needle fuel _ (off + needle.length) s e hmem
        refine ⟨by omega, h2, ?_⟩
        rw [List.drop_drop] at h3
        have harith : needle.length + (s - (off + needle.length)) = s - off := by omega
        rwa [harith] at h3
    · simp only [searchAllFuel, if_neg hp] at h
      obtain ⟨h1, h2, h3⟩ := searchAllFuel_sound needle fuel rest (off + 1) s e h
      refine ⟨by omega, h2, ?_⟩
      have hs : s - off = (s - (off + 1)) + 1 := by omega
      rw [hs]
      simpa [List.drop_succ_cons] using h3

/-- Occurrences reported by `searchAll` are real: the needle is nonempty,
`endIndex = startIndex + needle.length ≤ hay.length`, and the slice of the
haystack between the two indices is the needle. -/
theorem searchAll_sound (needle hay : List Char) (s e : Nat)
    (h : (s, e) ∈ searchAll needle hay) :
    needle ≠ [] ∧ e = s + needle.length ∧ e ≤ hay.length ∧
      (hay.drop s).take (e - s) = needle := by
  unfold searchAll at h
  by_cases hn : needle = []
  · simp [hn] at h
  · rw [if_neg hn] at h
    obtain ⟨h1, h2, h3⟩ := searchAllFuel_sound needle hay.length hay 0 s e h
    rw [Nat.sub_zero] at h3
    have htake := isPrefixOf_take _ _ h3
    have hlen := isPrefixOf_length_le _ _ h3
    rw [List.length_drop] at hlen
    have hpos : 0 < needle.length := List.length_pos.mpr hn
    have hes : e - s = needle.length := by omega
    refine ⟨hn, h2, by omega, ?_⟩
    rw [hes]
    exact htake

/-- Elements of `ungroupFrom i0 ls` carry a tag at least `i0`, in range of
`ls`, and their payload belongs to the tagged inner list. -/
theorem ungroupFrom_sound :
    ∀ (ls : List (List (Nat × Nat))) (i0 : Nat) (x : TOcc), x ∈ ungroupFrom i0 ls →
      i0 ≤ x.1 ∧ x.1 - i0 < ls.length ∧ x.2 ∈ ls.getD (x.1 - i0) []
  | [], i0, x, h => by simp [ungroupFrom] at h
  | l :: ls, i0, x, h => by
    simp only [ungroupFrom, List.mem_append, List.mem_map] at h
    rcases h with ⟨sr, hsr, rfl⟩ | hmem
    · exact ⟨le_refl _, by simp, by simpa using hsr⟩
    · obtain ⟨h1, h2, h3⟩ := ungroupFrom_sound ls (i0 + 1) x hmem
      refine ⟨by omega, by simp; omega, ?_⟩
      have hd : x.1 - i0 = (x.1 - (i0 + 1)) + 1 := by omega
      rw [hd, List.getD_cons_succ]
      exact h3

/-- Every tagged occurrence produced by the compiler's first stage has a
target index in range, a nonempty span inside the template, and its slice of
the template is exactly the tagged target. -/
theorem taggedOccs_sound (template : List Char) (targets : List (List Char)) (x : TOcc)
    (h : x ∈ taggedOccs template targets) :
    x.1 < targets.length ∧ x.2.1 < x.2.2 ∧ x.2.2 ≤ template.length ∧
      (template.drop x.2.1).take (x.2.2 - x.2.1) = targets.getD x.1 [] := by
  obtain ⟨h1, h2, h3⟩ := ungroupFrom_sound _ 0 x h
  rw [Nat.sub_zero] at h2 h3
  rw [List.length_map] at h2
  have hget : (targets.map (fun t => searchAll t template)).getD x.1 []
      = searchAll (targets.getD x.1 []) template := by
    simp [List.getD_eq_getElem?_getD, List.getElem?_map, List.getElem?_eq_getElem h2]
  rw [hget] at h3
  obtain ⟨hne, he, hbound, htake⟩ := searchAll_sound _ _ x.2.1 x.2.2 h3
  have hpos : 0 < (targets.getD x.1 []).length := List.length_pos.mpr hne
  exact ⟨h2, by omega, hbound, htake⟩

/-! Properties of the sorting and overlap-suppression stages. -/

/-- Sorting preserves membership. -/
theorem sortOccs_mem {l : List TOcc} {x : TOcc} (h : x ∈ sortOccs l) : x ∈ l :=
  (List.mem_insertionSort occLE).mp h

/-- The sorted occurrence list has nondecreasing start indices. -/
theorem sortOccs_startMono (l : List TOcc) :
    (sortOccs l).Pairwise (fun a b => a.2.1 ≤ b.2.1) := by
  have hs : (sortOccs l).Pairwise occLE := List.sorted_insertionSort occLE l
  exact hs.imp (fun hab => by unfold occLE at hab; omega)

/-- Overlap suppression only keeps occurrences of its input. -/
theorem resolveFuel_mem : ∀ (fuel : Nat) (l : List TOcc) (x : TOcc),
    x ∈ resolveFuel fuel l → x ∈ l
  | 0, l, x, h => by simp [resolveFuel] at h
  | fuel + 1, [], x, h => by simp [resolveFuel] at h
  | fuel + 1, head :: tail, x, h => by
    simp only [resolveFuel, List.mem_cons] at h
    rcases h with rfl | h
    · exact List.mem_cons_self _ _
    · exact List.mem_cons_of_mem _
        ((List.dropWhile_sublist _).subset (resolveFuel_mem fuel _ x h))

/-- The first survivor, when there is one, is the head of the input. -/
theorem resolveFuel_head_mem : ∀ (fuel : Nat) (l : List TOcc) (x : TOcc),
    (resolveFuel fuel l).head? = some x → l.head? = some x
  | 0, l, x, h => by simp [resolveFuel] at h
  | fuel + 1, [], x, h => by simp [resolveFuel] at h
  | fuel + 1, head :: tail, x, h => by
    simp only [resolveFuel, List.head?_cons, Option.some.injEq] at h
    simp [h]

/-- The head of a `dropWhile` result does not satisfy the dropped predicate. -/
theorem dropWhile_head_not (p : α → Bool) : ∀ (l : List α) (x : α),
    (l.dropWhile p).head? = some x → p x = false
  | [], x, h => by simp at h
  | a :: l, x, h => by
    by_cases hp : p a
    · rw [List.dropWhile_cons, if_pos hp] at h
      exact dropWhile_head_not p l x h
    · rw [List.dropWhile_cons, if_neg hp] at h
      simp only [List.head?_cons, Option.some.injEq] at h
      rw [← h]
      simpa using hp

/-- On a start-sorted input, the survivors of overlap suppression are
non-overlapping: each survivor ends at or before the next one starts. -/
theorem resolveFuel_chain : ∀ (fuel : Nat) (l : List TOcc),
    l.Pairwise (fun a b => a.2.1 ≤ b.2.1) →
    (resolveFuel fuel l).Chain' (fun a b => a.2.2 ≤ b.2.1)
  | 0, l, _ => by simp [resolveFuel]
  | fuel + 1, [], _ => by simp [resolveFuel]
  | fuel + 1, head :: tail, hp => by
    simp only [resolveFuel]
    rw [List.chain'_cons']
    have htail := (List.pairwise_cons.mp hp).2
    have hdrop := List.Pairwise.sublist
      (List.dropWhile_sublist (fun x : TOcc => decide (x.2.1 < head.2.2))) htail
    refine ⟨?_, resolveFuel_chain fuel _ hdrop⟩
    intro y hy
    have h1 := resolveFuel_head_mem fuel _ y hy
    have h2 := dropWhile_head_not _ _ y h1
    simp only [decide_eq_false_iff_not, not_lt] at h2
    exact h2

/-! Reconstruction: the blocks cut by `mapAccum` concatenate back to the
template. -/

/-- Block indices produced by the compiler's `mapAccum` stage come from the
survivor list. -/
theorem mapAccum_make_idx (template : List Char) :
    ∀ (l : List TOcc) (c : Nat) (b : List Char × Nat),
      b ∈ (mapAccum (fun startPos occ =>
        (occ.2.2, (jsSubstring template startPos occ.2.1, occ.1))) c l).2 →
      ∃ x ∈ l, b.2 = x.1
  | [], c, b, h => by simp [mapAccum] at h
  | occ :: rest, c, b, h => by
    simp only [mapAccum, List.mem_cons] at h
    rcases h with rfl | h
    · exact ⟨occ, List.mem_cons_self _ _, rfl⟩
    · obtain ⟨x, hx, hb⟩ := mapAccum_make_idx template rest occ.2.2 b h
      exact ⟨x, List.mem_cons_of_mem _ hx, hb⟩

/-- With indices in order (`a ≤ b`), a slice up to `b` glued to the rest from
`b` is the rest from `a`. -/
theorem take_drop_glue (t : List Char) (a b : Nat) (h : a ≤ b) :
    (t.drop a).take (b - a) ++ t.drop b = t.drop a := by
  have hd : t.drop b = (t.drop a).drop (b - a) := by
    rw [List.drop_drop]
    congr 1
    omega
  rw [hd, List.take_append_drop]

/-- Within bounds, `jsSubstring` is plain `drop`-then-`take`. -/
theorem jsSubstring_eq (s : List Char) (a b : Nat) (hab : a ≤ b) (hb : b ≤ s.length) :
    jsSubstring s a b = (s.drop a).take (b - a) := by
  show (s.take (max (min a s.length) (min b s.length))).drop (min (min a s.length)
    (min b s.length)) = (s.drop a).take (b - a)
  have h1 : min a s.length = a := Nat.min_eq_left (le_trans hab hb)
  have h2 : min b s.length = b := Nat.min_eq_left hb
  rw [h1, h2, Nat.min_eq_left hab, Nat.max_eq_right hab, List.drop_take]

/-- Telescoping lemma: over a chain of non-overlapping in-bounds occurrences
whose slices are the looked-up values, the blocks cut by `mapAccum` starting
at cursor `c`, interleaved with those values and followed by the tail after
the final cursor, reproduce the template from `c` on. -/
theorem telescope (template : List Char) (values : List (List Char)) :
    ∀ (l : List TOcc) (c : Nat),
      (∀ x ∈ l, x.2.1 ≤ x.2.2 ∧ x.2.2 ≤ template.length ∧
        (template.drop x.2.1).take (x.2.2 - x.2.1) = values.getD x.1 []) →
      l.Chain' (fun a b => a.2.2 ≤ b.2.1) →
      (∀ x ∈ l.head?, c ≤ x.2.1) →
      (((mapAccum (fun startPos occ =>
          (occ.2.2, (jsSubstring template startPos occ.2.1, occ.1))) c l).2.map
        (fun b => b.1 ++ values.getD b.2 [])).flatten ++
        template.drop (mapAccum (fun startPos occ =>
          (occ.2.2, (jsSubstring template startPos occ.2.1, occ.1))) c l).1)
      = template.drop c
  | [], c, _, _, _ => by simp [mapAccum]
  | ⟨i, s, e⟩ :: rest, c, hprops, hchain, hc => by
    obtain ⟨hse, helen, htake⟩ := hprops _ (List.mem_cons_self _ _)
    have hcs : c ≤ s := hc (i, s, e) (by simp)
    have hchain' := List.chain'_cons'.mp hchain
    have IH := telescope template values rest e
      (fun x hx => hprops x (List.mem_cons_of_mem _ hx)) hchain'.2
      (fun x hx => hchain'.1 x hx)
    simp only [mapAccum, List.map_cons, List.flatten_cons]
    rw [List.append_assoc, IH, jsSubstring_eq template c s hcs (le_trans hse helen),
      ← htake]
    dsimp only
    rw [List.append_assoc, take_drop_glue template s e hse, take_drop_glue template c s hcs]

/-- Shared invariant: every block of a compiled template refers to a target
index below `targets.length`. -/
theorem blocks_targetIndex_lt (template : List Char) (targets : List (List Char)) :
    ∀ b ∈ (make template targets).textAndTargetArray, b.2 < targets.length := by
  intro b hb
  obtain ⟨x, hx, hbx⟩ := mapAccum_make_idx template
    (resolveOverlaps (sortOccs (taggedOccs template targets))) 0 b hb
  rw [hbx]
  exact (taggedOccs_sound template targets x
    (sortOccs_mem (resolveFuel_mem _ _ x hx))).1

/-! Refinement of overlap suppression against the spec's greedy wording. -/

/-- On a start-sorted list, keeping the occurrences at or past a bound
(the spec's "drop every other occurrence whose startIndex is less than
winnerEnd") is the same as dropping the front run below the bound. -/
theorem filter_ge_eq_dropWhile_lt (bound : Nat) :
    ∀ l : List TOcc, l.Pairwise (fun a b => a.2.1 ≤ b.2.1) →
      l.filter (fun x => ¬ x.2.1 < bound) = l.dropWhile (fun x => x.2.1 < bound)
  | [], _ => rfl
  | a :: l, hp => by
    have htail := (List.pairwise_cons.mp hp).2
    by_cases h : a.2.1 < bound
    · rw [List.filter_cons, List.dropWhile_cons, if_neg (by simp [h]), if_pos (by simp [h])]
      exact filter_ge_eq_dropWhile_lt bound l htail
    · rw [List.filter_cons, List.dropWhile_cons, if_pos (by simp [h]), if_neg (by simp [h])]
      congr 1
      rw [List.filter_eq_self]
      intro x hx
      have hax := List.rel_of_pairwise_cons hp hx
      simp only [decide_eq_true_eq, decide_not, Bool.not_eq_true', decide_eq_false_iff_not]
      omega

/-- With the same fuel and a start-sorted input, the source's
`dropWhile`-based chop step computes the spec's filter-based greedy
selection. -/
theorem resolveFuel_eq_greedyFuel : ∀ (fuel : Nat) (l : List TOcc),
    l.Pairwise (fun a b => a.2.1 ≤ b.2.1) → resolveFuel fuel l = greedyFuel fuel l
  | 0, _, _ => rfl
  | _ + 1, [], _ => rfl
  | fuel + 1, head :: tail, hp => by
    simp only [resolveFuel, greedyFuel]
    have htail := (List.pairwise_cons.mp hp).2
    rw [← filter_ge_eq_dropWhile_lt head.2.2 tail htail]
    congr 1
    exact resolveFuel_eq_greedyFuel fuel _
      (List.Pairwise.sublist (List.filter_sublist _) htail)

/-! Claim theorems about the compiler and the writer. -/

/-- C2: for every template string and target list, concatenating, in block
order, each block's static text followed by the target string at that
block's target index, then appending `finalStaticText`, reproduces the
original template exactly; equivalently, `write` applied to
`make template targets` with the target strings themselves as values
returns the template. -/
theorem make_reconstructs (template : List Char) (targets : List (List Char)) :
    ((((make template targets).textAndTargetArray.map
        (fun b => b.1 ++ targets.getD b.2 [])).flatten ++
      (make template targets).finalStaticText) = template)
    ∧ write (make template targets) targets = template := by
  have h := telescope template targets
      (resolveOverlaps (sortOccs (taggedOccs template targets))) 0
      (fun x hx => by
        obtain ⟨_, h2, h3, h4⟩ := taggedOccs_sound template targets x
          (sortOccs_mem (resolveFuel_mem _ _ x hx))
        exact ⟨Nat.le_of_lt h2, h3, h4⟩)
      (resolveFuel_chain _ _ (sortOccs_startMono _))
      (fun x _ => Nat.zero_le _)
  rw [List.drop_zero] at h
  exact ⟨h, h⟩

/-- C9: every block of a compiled template produced by `make` carries a
target index that is a valid index into the retained target list, because
indices are generated by tagging each target's own search results; index
lookups by `write` and `read` on compiler-produced blocks are therefore
always in range. -/
theorem make_targetIndex_valid (template : List Char) (targets : List (List Char)) :
    ∀ b ∈ (make template targets).textAndTargetArray, b.2 < targets.length :=
  blocks_targetIndex_lt template targets

/-- C9 witness: the single block compiled from template "ab" with target
"b" refers to index 0 of the one-element target list. -/
theorem make_targetIndex_valid_witness : (str "a", 0).2 < [str "b"].length :=
  make_targetIndex_valid (str "ab") [str "b"] (str "a", 0) (by decide)

/-- C8: `write` is total (a plain Lean function into strings, with no error
outcome) and tolerant: values beyond `targets.length` are ignored, and
padding a too-short value tuple with empty strings does not change the
output, i.e. missing positions contribute the empty string. -/
theorem write_tolerant (template : List Char) (targets : List (List Char))
    (values : List (List Char)) (k : Nat) :
    (write (make template targets) values
        = write (make template targets) (values.take targets.length))
    ∧ write (make template targets) values
        = write (make template targets) (values ++ List.replicate k []) := by
  have hcong : ∀ (values' : List (List Char)),
      (∀ i < targets.length, values'.getD i [] = values.getD i []) →
      write (make template targets) values' = write (make template targets) values := by
    intro values' hv
    unfold write
    congr 1
    congr 1
    apply List.map_congr_left
    intro b hb
    rw [hv b.2 (blocks_targetIndex_lt template targets b hb)]
  constructor
  · refine (hcong _ (fun i hi => ?_)).symm
    rw [List.getD_eq_getElem?_getD, List.getD_eq_getElem?_getD, List.getElem?_take,
      if_pos hi]
  · refine (hcong _ (fun i hi => ?_)).symm
    rw [List.getD_eq_getElem?_getD, List.getD_eq_getElem?_getD, List.getElem?_append]
    by_cases h : i < values.length
    · rw [if_pos h]
    · rw [if_neg h, List.getElem?_replicate]
      have hnone : values[i]? = none := List.getElem?_eq_none (by omega)
      rw [hnone]
      split <;> rfl

/-- C3: overlap resolution in `make` is the foremost-longest greedy
partition: the tagged occurrences are sorted by start index ascending then
end index descending, the first remaining occurrence wins its span, every
occurrence whose start index is below the winner's end index is discarded,
and this repeats; in particular for targets ["tree", "tree-shaking"] and
template "this bundler is good at tree-shaking" the compiled template holds
exactly one block, for tree-shaking, and never one for tree. -/
theorem overlap_resolution_greedy :
    (∀ (template : List Char) (targets : List (List Char)),
      resolveOverlaps (sortOccs (taggedOccs template targets))
        = greedySelect (sortOccs (taggedOccs template targets)))
    ∧ make (str "this bundler is good at tree-shaking") [str "tree", str "tree-shaking"]
        = { textAndTargetArray := [(str "this bundler is good at ", 1)]
            finalStaticText := []
            targets := [str "tree", str "tree-shaking"] } := by
  constructor
  · intro template targets
    exact resolveFuel_eq_greedyFuel _ _ (sortOccs_startMono _)
  · decide

/-! Reader lemmas. -/

/-- A scan error arising after a successfully scanned prefix of blocks is
the error of the whole scan, at the position shifted by the prefix length. -/
theorem scanBlocks_append_error (targetPatterns : List Pat) :
    ∀ (b1 b2 : List (List Char × Nat)) (pos : Nat) (cand cursor : List Char)
      (vs : List (Nat × Option (List Char))) (err : ReadError),
      scanBlocks targetPatterns b1 pos cand = .ok (cursor, vs) →
      scanBlocks targetPatterns b2 (pos + b1.length) cursor = .error err →
      scanBlocks targetPatterns (b1 ++ b2) pos cand = .error err
  | [], b2, pos, cand, cursor, vs, err, h1, h2 => by
    simp only [scanBlocks, Except.ok.injEq, Prod.mk.injEq] at h1
    obtain ⟨rfl, -⟩ := h1
    simpa using h2
  | (staticText, targetIndex) :: b1', b2, pos, cand, cursor, vs, err, h1, h2 => by
    rw [List.cons_append]
    have hlen : pos + ((staticText, targetIndex) :: b1').length
        = (pos + 1) + b1'.length := by
      simp only [List.length_cons]
      omega
    rw [hlen] at h2
    simp only [scanBlocks] at h1 ⊢
    by_cases hpre : cand.take staticText.length = staticText
    · rw [if_pos hpre] at h1 ⊢
      cases hpat : targetPatterns[targetIndex]? with
      | none =>
        rw [hpat] at h1
        dsimp only at h1 ⊢
        cases hrec : scanBlocks targetPatterns b1' (pos + 1)
            (cand.drop staticText.length) with
        | error e =>
          rw [hrec] at h1
          exact absurd h1 (by simp)
        | ok p =>
          obtain ⟨c', vs'⟩ := p
          rw [hrec] at h1
          simp only [Except.ok.injEq, Prod.mk.injEq] at h1
          rw [scanBlocks_append_error targetPatterns b1' b2 (pos + 1) _ c' vs' err hrec
            (by rw [h1.1]; exact h2)]
      | some pat =>
        rw [hpat] at h1
        dsimp only at h1 ⊢
        cases hmatch : pat (cand.drop staticText.length) with
        | none =>
          rw [hmatch] at h1
          exact absurd h1 (by simp)
        | some v =>
          rw [hmatch] at h1
          dsimp only at h1 ⊢
          cases hrec : scanBlocks targetPatterns b1' (pos + 1)
              ((cand.drop staticText.length).drop v.length) with
          | error e =>
            rw [hrec] at h1
            exact absurd h1 (by simp)
          | ok p =>
            obtain ⟨c', vs'⟩ := p
            rw [hrec] at h1
            simp only [Except.ok.injEq, Prod.mk.injEq] at h1
            rw [scanBlocks_append_error targetPatterns b1' b2 (pos + 1) _ c' vs' err hrec
              (by rw [h1.1]; exact h2)]
    · rw [if_neg hpre] at h1
      exact absurd h1 (by simp)

/-- C7: for every compiled template and candidate, if at some block the
remaining cursor does not start with that block's static text, `read` fails
with a `BadFormat` error carrying the expected literal and that block's
ordinal position. -/
theorem read_badFormat_static (targetPatterns : List Pat)
    (blocks1 blocks2 : List (List Char × Nat)) (staticText : List Char)
    (targetIndex : Nat) (finalText : List Char) (targets : List (List Char))
    (cand cursor : List Char) (vs : List (Nat × Option (List Char)))
    (hscan : scanBlocks targetPatterns blocks1 0 cand = .ok (cursor, vs))
    (hmismatch : cursor.take staticText.length ≠ staticText) :
    read ⟨blocks1 ++ (staticText, targetIndex) :: blocks2, finalText, targets⟩
        targetPatterns cand
      = .error (.badFormatText staticText blocks1.length) := by
  have herr : scanBlocks targetPatterns ((staticText, targetIndex) :: blocks2)
      (0 + blocks1.length) cursor
      = .error (.badFormatText staticText blocks1.length) := by
    simp only [scanBlocks, if_neg hmismatch, Nat.zero_add]
  have hall := scanBlocks_append_error targetPatterns blocks1 _ 0 cand cursor vs _
    hscan herr
  unfold read
  rw [hall]

/-- C7 witness: the spec's own example — reading "Hi World!" against the
compiled template of "Hello {name}!" fails with `BadFormat` at the first
block, expecting the literal "Hello ". -/
theorem read_badFormat_static_witness :
    read (make (str "Hello {name}!") [str "{name}"]) [litPat (str "World")]
        (str "Hi World!")
      = .error (.badFormatText (str "Hello ") 0) :=
  read_badFormat_static [litPat (str "World")] [] [] (str "Hello ") 0 (str "!")
    [str "{name}"] (str "Hi World!") (str "Hi World!") [] rfl (by decide)

/-- A list is a boolean prefix of itself followed by anything. -/
theorem isPrefixOf_self_append : ∀ (p x : List Char), p.isPrefixOf (p ++ x) = true
  | [], x => by simp [List.isPrefixOf]
  | a :: p, x => by simp [List.isPrefixOf, isPrefixOf_self_append p x]

/-- Scanning the writer's output with exact-literal patterns succeeds in
lockstep: each block consumes its static text and its written value, every
block captures its value, and the cursor ends on `rest`. -/
theorem scanBlocks_write (values : List (List Char)) :
    ∀ (blocks : List (List Char × Nat)) (pos : Nat) (rest : List Char),
      (∀ b ∈ blocks, b.2 < values.length) →
      scanBlocks (values.map litPat) blocks pos
          ((blocks.map (fun b => b.1 ++ values.getD b.2 [])).flatten ++ rest)
        = .ok (rest, blocks.map (fun b => (b.2, some (values.getD b.2 []))))
  | [], pos, rest, _ => by simp [scanBlocks]
  | (staticText, targetIndex) :: blocks', pos, rest, hv => by
    have hti : targetIndex < values.length :=
      hv (staticText, targetIndex) (List.mem_cons_self _ _)
    have hpat : (values.map litPat)[targetIndex]? = some (litPat (values.getD targetIndex [])) := by
      rw [List.getElem?_map, List.getElem?_eq_getElem hti]
      simp [List.getD_eq_getElem?_getD, List.getElem?_eq_getElem hti]
    simp only [List.map_cons, List.flatten_cons, List.append_assoc, scanBlocks]
    rw [if_pos (by rw [List.take_left]), List.drop_left, hpat]
    dsimp only
    have hlit : litPat (values.getD targetIndex [])
        (values.getD targetIndex [] ++
          ((blocks'.map (fun b => b.1 ++ values.getD b.2 [])).flatten ++ rest))
        = some (values.getD targetIndex []) := by
      unfold litPat
      rw [if_pos (isPrefixOf_self_append _ _)]
    rw [hlit]
    dsimp only
    rw [List.drop_left]
    rw [scanBlocks_write values blocks' (pos + 1) rest
      (fun b hb => hv b (List.mem_cons_of_mem _ hb))]

/-- Sequencing a list of `ok` results returns the list of their values. -/
theorem exceptAll_map_ok (l : List α) :
    exceptAll (l.map (Except.ok : α → Except ReadError α)) = .ok l := by
  induction l with
  | nil => rfl
  | cons a l ih => simp [exceptAll, ih, Except.map]

/-- Looking every index of a list up in order rebuilds the list. -/
theorem map_getD_range : ∀ (values : List (List Char)),
    (List.range values.length).map (fun i => values.getD i []) = values
  | [] => rfl
  | v :: values => by
    rw [List.length_cons, List.range_succ_eq_map, List.map_cons]
    simp only [List.getD_cons_zero, List.map_map]
    congr 1
    have hcomp : ((fun i => (v :: values).getD i []) ∘ Nat.succ)
        = fun i => values.getD i [] := by
      funext i
      simp [List.getD_cons_succ]
    rw [hcomp]
    exact map_getD_range values

/-- When every target index owns exactly one block and every block's capture
is the looked-up value, reconciliation returns all the values (bare, since
the source's `optionFromOptional` is commented out). -/
theorem collect_once (targets values : List (List Char))
    (blocks : List (List Char × Nat))
    (hlen : values.length = targets.length)
    (honce : ∀ i < targets.length, (blocks.filter (fun b => b.2 == i)).length = 1) :
    collect targets (blocks.map (fun b => (b.2, some (values.getD b.2 [])))) = .ok values := by
  unfold collect
  have hmapped : ∀ i ∈ List.range targets.length,
      (match optionAll (((blocks.map (fun b => (b.2, some (values.getD b.2 [])))).filter
          (fun p => p.1 == i)).map Prod.snd) with
      | none => Except.error ReadError.noSuchElement
      | some [] => Except.error ReadError.noSuchElement
      | some [v] => Except.ok v
      | some (v1 :: v2 :: r) =>
        Except.error (ReadError.tooMany (targets.getD i [])
          (findAllIdx (fun p => p.1 == i)
            (blocks.map (fun b => (b.2, some (values.getD b.2 []))))) (v1 :: v2 :: r)))
      = Except.ok (values.getD i []) := by
    intro i hi
    rw [List.mem_range] at hi
    have hfil : (blocks.map (fun b => (b.2, some (values.getD b.2 [])))).filter
        (fun p => p.1 == i)
        = (blocks.filter (fun b => b.2 == i)).map
            (fun b => (b.2, some (values.getD b.2 []))) := by
      rw [List.filter_map]
      rfl
    obtain ⟨b, hb⟩ := List.length_eq_one.mp (honce i hi)
    have hbmem : b ∈ blocks.filter (fun b => b.2 == i) := by
      rw [hb]
      exact List.mem_cons_self _ _
    have hbi : b.2 = i := by simpa using (List.mem_filter.mp hbmem).2
    rw [hfil, hb, List.map_cons, List.map_nil, hbi]
    rfl
  rw [List.map_congr_left hmapped]
  have hok : (fun i => Except.ok (values.getD i []))
      = ((Except.ok : List Char → Except ReadError (List Char)) ∘
          fun i => values.getD i []) := rfl
  rw [hok, ← List.map_map, exceptAll_map_ok, ← hlen, map_getD_range]

/-- C6 amended: for every compiled template in which each target occurs
exactly once among the blocks, writing a full tuple of values and reading
the result back with patterns that exactly match those written values
succeeds and returns the originally written values — as bare strings, since
the code never wraps captures in `Some` (the unwrapping bug recorded with
the commented-out line 232). -/
theorem write_read_roundtrip (blocks : List (List Char × Nat)) (finalText : List Char)
    (targets values : List (List Char))
    (hlen : values.length = targets.length)
    (hvalid : ∀ b ∈ blocks, b.2 < targets.length)
    (honce : ∀ i < targets.length, (blocks.filter (fun b => b.2 == i)).length = 1) :
    read ⟨blocks, finalText, targets⟩ (values.map litPat)
        (write ⟨blocks, finalText, targets⟩ values) = .ok values := by
  unfold read write
  rw [scanBlocks_write values blocks 0 finalText
    (fun b hb => by rw [hlen]; exact hvalid b hb)]
  dsimp only
  rw [if_pos rfl]
  exact collect_once targets values blocks hlen honce

/-- C6 amended witness: the one-block template with target "X" round-trips
the value "World". -/
theorem write_read_roundtrip_witness :
    read ⟨[(str "Hello ", 0)], str "!", [str "X"]⟩ ([str "World"].map litPat)
        (write ⟨[(str "Hello ", 0)], str "!", [str "X"]⟩ [str "World"])
      = .ok [str "World"] :=
  write_read_roundtrip [(str "Hello ", 0)] (str "!") [str "X"] [str "World"]
    (by decide) (by decide) (by decide)

/-! Concrete behaviour of `read` on the absence and multiplicity cases.  The
source's own doc comment promises `None` for an absent target or an absent
pattern, but with the `optionFromOptional` of line 232 commented out the
code instead fails with a `NoSuchElementException`; `readIntended` (the code
with that line restored) shows the documented behaviour. -/

/-- C1: reading the compiled template of "Hello" (target "name" absent)
against "Hello" fails with the escaping `NoSuchElementException` instead of
resolving to `None`; likewise for an occurring target with no pattern
(template "Hi name", no pattern list).  The intended reader returns
`Some [none]` in both cases, as the source documents. -/
theorem read_absence_error :
    read (make (str "Hello") [str "name"]) [litPat (str "x")] (str "Hello")
        = .error .noSuchElement
    ∧ readIntended (make (str "Hello") [str "name"]) [litPat (str "x")] (str "Hello")
        = .ok [none]
    ∧ read (make (str "Hi name") [str "name"]) [] (str "Hi ")
        = .error .noSuchElement
    ∧ readIntended (make (str "Hi name") [str "name"]) [] (str "Hi ")
        = .ok [none] :=
  ⟨rfl, rfl, rfl, rfl⟩

/-- C4: with targets ["A", "B"] and template "B-B", reading "x-x" captures
"B" at two blocks, so the claim demands a `TooMany` naming "B"; the code
instead fails with the `NoSuchElementException` produced for the absent
target "A", which has the lower index and wins the `Either.all`. With "B"
alone the `TooMany` does fire — also for two textually identical captures,
so equality-based merging indeed never occurs. -/
theorem read_tooMany_shadowed :
    read (make (str "B-B") [str "A", str "B"]) [litPat (str "x"), litPat (str "x")]
        (str "x-x")
      = .error .noSuchElement
    ∧ readIntended (make (str "B-B") [str "A", str "B"])
        [litPat (str "x"), litPat (str "x")] (str "x-x")
      = .error (.tooMany (str "B") [0, 1] [str "x", str "x"])
    ∧ read (make (str "B-B") [str "B"]) [litPat (str "x")] (str "x-x")
      = .error (.tooMany (str "B") [0, 1] [str "x", str "x"]) :=
  ⟨rfl, rfl, rfl⟩

/-- C5: on a successful read with exactly one capture per target, the code
returns the bare captured string ("World") where its declared type and doc
comment promise the `Option`-wrapped `Some "World"`; the intended reader
(line 232 restored) produces the wrapped value. -/
theorem read_unwrapped_value :
    read (make (str "Hello {name}!") [str "{name}"]) [litPat (str "World")]
        (str "Hello World!")
      = .ok [str "World"]
    ∧ readIntended (make (str "Hello {name}!") [str "{name}"]) [litPat (str "World")]
        (str "Hello World!")
      = .ok [some (str "World")] :=
  ⟨rfl, rfl⟩

/-- C6 counterexample: in template "A-A" the target "A" occurs twice; writing
["x"] produces "x-x", and reading it back with the exactly-matching pattern
does not succeed with `Some "x"` but fails with `TooMany` — the two
(identical) captures are rejected per the strict multiplicity policy, so the
unconditional round-trip claim is false. -/
theorem roundtrip_counterexample :
    read (make (str "A-A") [str "A"]) [litPat (str "x")]
        (write (make (str "A-A") [str "A"]) [str "x"])
      = .error (.tooMany (str "A") [0, 1] [str "x", str "x"]) :=
  rfl

end Templater

namespace TFormat

/-- Stand-in for the external `#project/Alignment` collaborator; its content
(left/right/center padding) is irrelevant to the clamping claims, only the
`makeNone` default is needed. -/
inductive Alignment
  | noAlign
deriving DecidableEq, Repr

/-- Model of `Alignment.makeNone`. -/
def Alignment.makeNone : Alignment := .noAlign

/-- Model of `Number.clamp (value, {minimum, maximum})` from effect:
`min (max value minimum) maximum`.  JS numbers are modelled as rationals;
the float-only values NaN and the infinities are outside the model. -/
def clamp (x lo hi : ℚ) : ℚ := min (max x lo) hi

/-- Translation of the `Int` format class of src/unnamed/part_000 (lines
28-46): `base` defaults to 10 and is clamped to `[2, 36]`. -/
structure IntFormat where
  base : ℚ
  alignment : Alignment
deriving DecidableEq, Repr

/-- Translation of the `makeInt` constructor; the optional parameters of
the source's params object are `Option` arguments. -/
def makeInt (base : Option ℚ) (alignment : Option Alignment) : IntFormat :=
  { base := clamp (base.getD 10) 2 36
    alignment := alignment.getD Alignment.makeNone }

/-- Translation of the `InternalNumber` format class of src/unnamed/part_000
(lines 57-86): `digits` defaults to 2 and is clamped to `[0, 100]`. -/
structure NumberFormat where
  digits : ℚ
  exponentialNotation : Bool
  alignment : Alignment
deriving DecidableEq, Repr

/-- Translation of the `makeNumber` constructor. -/
def makeNumber (digits : Option ℚ) (exponentialNotation : Option Bool)
    (alignment : Option Alignment) : NumberFormat :=
  { digits := clamp (digits.getD 2) 0 100
    exponentialNotation := exponentialNotation.getD false
    alignment := alignment.getD Alignment.makeNone }

/-- C10: the formatting constructors clamp their numeric parameters — for
every argument the constructed base equals the given base (default 10)
clamped to [2, 36], and the constructed digits equal the given digits
(default 2) clamped to [0, 100] — so no constructed format holds an
out-of-range base or digit count. -/
theorem format_constructors_clamped (b d : Option ℚ) (al al2 : Option Alignment)
    (en : Option Bool) :
    (makeInt b al).base = clamp (b.getD 10) 2 36
    ∧ 2 ≤ (makeInt b al).base ∧ (makeInt b al).base ≤ 36
    ∧ (makeInt none al).base = 10
    ∧ (makeNumber d en al2).digits = clamp (d.getD 2) 0 100
    ∧ 0 ≤ (makeNumber d en al2).digits ∧ (makeNumber d en al2).digits ≤ 100
    ∧ (makeNumber none en al2).digits = 2 := by
  refine ⟨rfl, ?_, ?_, by norm_num [makeInt, clamp], rfl, ?_, ?_,
    by norm_num [makeNumber, clamp]⟩
  · exact le_min (le_max_right _ _) (by norm_num)
  · exact min_le_right _ _
  · exact le_min (le_max_right _ _) (by norm_num)
  · exact min_le_right _ _

end TFormat
